import Mathlib

/-!
Shallow embedding of the core data-preparation pipeline of
`src/data_preparation.py`: the medication-period normalizer
(`create_medication_periods`), the observation timeline builder
(`create_observation_timeline`) and the outcome resolver
(`create_patient_medication_outcomes`).

Modelling conventions:
* Calendar dates are integers (day numbers); the pandas `Timestamp`
  subtraction `(obs_date - med_start).days` on date-only values is the exact
  integer difference of the two day numbers.
* Observation values are `Option ℚ`: the source runs
  `pd.to_numeric(..., errors="coerce")` over a string column, producing a
  float or `NaN`; `none` models `NaN`/unparseable, `some q` a parsed number.
  Real-number arithmetic on the parsed floats is modelled over `ℚ`.
* pandas dataframes are `List`s of records, in row order.
* Python functions that assign columns back into their argument dataframe are
  modelled with explicit state passing: a `_run` function returns the pair
  (state of the argument collection after the call, returned collection).
* `groupby` over the nested (patient, med_code, med_description) then
  `obs_code` keys is flattened to a single grouping over the 4-tuple key: the
  resulting partition of rows, and hence every per-group computation, is
  identical; only the iteration order of the groups differs (pandas sorts group
  keys), which no theorem below depends on.
* `sort_values("days_relative")` (an unstable quicksort in pandas) is modelled
  with `List.insertionSort` by `days_relative`; all proofs rely only on the
  output being a permutation of the input sorted by `days_relative`, which
  holds for either algorithm.
* All functions are total Lean functions: the source raises no exceptions on
  well-typed input (its only `try/except` guards `float()` casts of values
  that are already floats).
-/

structure ObservationRecord where
  patient : String
  code : String
  description : String
  date : Int
  value : Option ℚ
  units : String
deriving DecidableEq

structure MedicationRecord where
  patient : String
  code : String
  description : String
  start : Int
  stop : Option Int
  reasondescription : Option String
deriving DecidableEq

structure TimelineRecord where
  patient : String
  med_code : String
  med_description : String
  med_start_date : Int
  obs_code : String
  obs_description : String
  obs_date : Int
  days_relative : Int
  value : Option ℚ
  units : String
deriving DecidableEq

structure OutcomeRecord where
  patient : String
  med_code : String
  med_description : String
  obs_code : String
  obs_description : String
  pre_value : Option ℚ
  post_value : Option ℚ
  change : Option ℚ
  percent_change : Option ℚ
  pre_date : Int
  post_date : Int
  days_between : Int
  units : String
deriving DecidableEq

/-- Day number of `pd.Timestamp.max` (2262-04-11), the sentinel used by
`fillna(pd.Timestamp.max)` for missing stop dates. -/
def timestampMaxDay : Int := 106751

/-- One row of `medications_df["stop"] = medications_df["stop"].fillna(pd.Timestamp.max)`:
a missing stop date becomes the sentinel maximum date, a present one is kept. -/
def fillStop (m : MedicationRecord) : MedicationRecord :=
  { m with stop := some (m.stop.getD timestampMaxDay) }

/-- Function `create_medication_periods(medications_df)` from `src/data_preparation.py`
(lines 181-197). The source converts the `start`/`stop` columns in place,
fills missing stops with `pd.Timestamp.max`, and returns the same dataframe
object. Explicit state passing: first component is the medications collection of the caller
collection after the call, second is the returned collection; in the source
they are the very same object. -/
def create_medication_periods_run (meds : List MedicationRecord) :
    List MedicationRecord × List MedicationRecord :=
  (meds.map fillStop, meds.map fillStop)

/-- The collection returned by `create_medication_periods`. -/
def create_medication_periods (meds : List MedicationRecord) : List MedicationRecord :=
  (create_medication_periods_run meds).2

/-- The state of the medications collection of the caller after
`create_medication_periods` returns (the function mutates its argument). -/
def create_medication_periods_inputAfter (meds : List MedicationRecord) :
    List MedicationRecord :=
  (create_medication_periods_run meds).1

/-- The timeline record built in the inner loop of `create_observation_timeline`
(lines 248-260): `days_relative = (obs_date - med_start).days`. -/
def mkTimelineRecord (m : MedicationRecord) (o : ObservationRecord) : TimelineRecord :=
  { patient := o.patient
    med_code := m.code
    med_description := m.description
    med_start_date := m.start
    obs_code := o.code
    obs_description := o.description
    obs_date := o.date
    days_relative := o.date - m.start
    value := o.value
    units := o.units }

/-- First-occurrence deduplication, the order semantics of pandas
`Series.unique()` used for `observations_df["patient"].unique()`. -/
def uniqueFirst {α : Type} [DecidableEq α] : List α → List α
  | [] => []
  | a :: l => a :: uniqueFirst (l.filter (fun b => ¬ b = a))
termination_by l => l.length
decreasing_by
  exact Nat.lt_succ_of_le (List.length_filter_le _ _)

/-- Body of the per-patient loop of `create_observation_timeline` (lines
227-262): take the observations and medication periods of this patient, skip the
patient when they have no medication periods, otherwise emit one record per
(medication period, observation) pair, medications outer, observations inner. -/
def patientTimeline (obs : List ObservationRecord) (meds : List MedicationRecord)
    (p : String) : List TimelineRecord :=
  let pObs := obs.filter (fun o => o.patient = p)
  let pMeds := meds.filter (fun m => m.patient = p)
  if pMeds.length = 0 then []
  else pMeds.flatMap (fun m => pObs.map (fun o => mkTimelineRecord m o))

/-- Function `create_observation_timeline(observations_df, medication_periods_df)` from
`src/data_preparation.py` (lines 199-267): empty input short-circuits to an
empty result; otherwise iterate the distinct patients of the observation
table (first-occurrence order) and run the per-patient loop. The in-place source `to_datetime`/`to_numeric` conversion of the `date`/`value` columns
is pre-applied by the `Int`/`Option ℚ` field types. -/
def create_observation_timeline (obs : List ObservationRecord)
    (meds : List MedicationRecord) : List TimelineRecord :=
  if obs.isEmpty || meds.isEmpty then []
  else (uniqueFirst (obs.map (fun o => o.patient))).flatMap (patientTimeline obs meds)

/-- The flattened grouping key of the outcome resolver: outer
`groupby(["patient", "med_code", "med_description"])` then inner
`groupby("obs_code")`. -/
def outcomeKey (r : TimelineRecord) : String × String × String × String :=
  (r.patient, r.med_code, r.med_description, r.obs_code)

/-- The rows of the timeline belonging to one group, in original row order
(pandas `groupby` preserves the within-group row order). -/
def groupOf (tl : List TimelineRecord) (k : String × String × String × String) :
    List TimelineRecord :=
  tl.filter (fun r => outcomeKey r = k)

/-- Comparison key of `obs_group.sort_values("days_relative")`. -/
def daysLE (a b : TimelineRecord) : Prop :=
  a.days_relative ≤ b.days_relative

instance : DecidableRel daysLE := fun a b =>
  inferInstanceAs (Decidable (a.days_relative ≤ b.days_relative))

instance : IsTotal TimelineRecord daysLE :=
  ⟨fun a b => le_total a.days_relative b.days_relative⟩

instance : IsTrans TimelineRecord daysLE :=
  ⟨fun _ _ _ h1 h2 => le_trans h1 h2⟩

/-- Models `obs_group.sort_values("days_relative")`. -/
def sortByDays (g : List TimelineRecord) : List TimelineRecord :=
  List.insertionSort daysLE g

/-- Models `pre_med = obs_group[obs_group["days_relative"] <= 0]` (on the sorted group). -/
def preCandidates (g : List TimelineRecord) : List TimelineRecord :=
  (sortByDays g).filter (fun r => r.days_relative ≤ 0)

/-- Models `post_med = obs_group[obs_group["days_relative"] > 0]` (on the sorted group). -/
def postCandidates (g : List TimelineRecord) : List TimelineRecord :=
  (sortByDays g).filter (fun r => 0 < r.days_relative)

/-- Models `pre_med.iloc[-1]`: the last pre candidate of the sorted group, i.e. the
most recent observation at or before medication start; `none` when there is
no pre candidate (the `else: continue` branch at line 310). -/
def selectPre (g : List TimelineRecord) : Option TimelineRecord :=
  (preCandidates g).getLast?

/-- Models `post_med["days_diff"] = abs(post_med["days_relative"] - target_days)`
with `target_days = 180` (line 316-317). -/
def daysDiff (r : TimelineRecord) : Int :=
  |r.days_relative - 180|

/-- Models `idxmin` over a column: the first element attaining the minimum of `f`,
in list order. -/
def argminFirst (f : TimelineRecord → Int) : List TimelineRecord → Option TimelineRecord
  | [] => none
  | r :: rs =>
    match argminFirst f rs with
    | none => some r
    | some m => if f r ≤ f m then some r else some m

/-- Models `closest_idx = post_med["days_diff"].idxmin()` and the `post_med.loc[closest_idx]`
reads (lines 318-321); `none` when there is no post candidate (line 323). -/
def selectPost (g : List TimelineRecord) : Option TimelineRecord :=
  argminFirst daysDiff (postCandidates g)

/-- Models `change = float(post_value) - float(pre_value)` (line 327): NaN operands
(`none`) propagate to a NaN result; the `float()` casts of float values never
raise, so the `except` branch is unreachable. -/
def computeChange (pre post : Option ℚ) : Option ℚ :=
  match pre, post with
  | some a, some b => some (b - a)
  | _, _ => none

/-- Models `percent_change = (change / float(pre_value)) * 100 if float(pre_value) != 0
else np.nan` (line 328): NaN when `pre` is exactly 0, and NaN by propagation
when either operand is NaN (`nan != 0` is true in Python and `nan/nan` is NaN). -/
def computePercentChange (pre post : Option ℚ) : Option ℚ :=
  match pre, post with
  | some a, some b => if a = 0 then none else some ((b - a) / a * 100)
  | _, _ => none

/-- The outcome record literal of lines 334-349: key and description/units
fields are read from the group (`obs_desc`/`units` come from the first row of the group *before* sorting, lines 297-299), values and dates from the selected pre
and post rows. -/
def mkOutcome (r0 pre post : TimelineRecord) : OutcomeRecord :=
  { patient := r0.patient
    med_code := r0.med_code
    med_description := r0.med_description
    obs_code := r0.obs_code
    obs_description := r0.obs_description
    pre_value := pre.value
    post_value := post.value
    change := computeChange pre.value post.value
    percent_change := computePercentChange pre.value post.value
    pre_date := pre.obs_date
    post_date := post.obs_date
    days_between := post.days_relative
    units := r0.units }

/-- The per-group body of `create_patient_medication_outcomes` (lines 292-351):
skip groups of fewer than 2 rows, skip groups without a pre or without a post
candidate, otherwise emit exactly one outcome record. -/
def processGroup (g : List TimelineRecord) : Option OutcomeRecord :=
  if g.length < 2 then none
  else
    match g.head?, selectPre g, selectPost g with
    | some r0, some pre, some post => some (mkOutcome r0 pre post)
    | _, _, _ => none

/-- Function `create_patient_medication_outcomes(timeline_df)` from
`src/data_preparation.py` (lines 269-356): group the timeline by the flattened
(patient, med_code, med_description, obs_code) key and collect the per-group
outcome records. The empty-input guard at line 279 is subsumed (no keys, no
groups). The `pd.to_numeric` re-coercion of the already numeric `value` column
at line 284 is the identity on `Option ℚ` values. -/
def create_patient_medication_outcomes (tl : List TimelineRecord) : List OutcomeRecord :=
  (uniqueFirst (tl.map outcomeKey)).filterMap (fun k => processGroup (groupOf tl k))

/-- State of the timeline collection of the caller after
`create_patient_medication_outcomes` returns: the function reassigns the
numeric-coerced `value` column into its argument (line 284), which on the
already numeric values produced by the timeline builder leaves every field
unchanged. -/
def create_patient_medication_outcomes_inputAfter (tl : List TimelineRecord) :
    List TimelineRecord :=
  tl.map (fun r => { r with value := r.value })

/-- The three core stages composed, as in `main` (lines 436-442). -/
def runPipeline (obs : List ObservationRecord) (meds : List MedicationRecord) :
    List TimelineRecord × List OutcomeRecord :=
  let periods := create_medication_periods meds
  let tl := create_observation_timeline obs periods
  (tl, create_patient_medication_outcomes tl)

/-- The group key carried by an outcome record. -/
def outKey (out : OutcomeRecord) : String × String × String × String :=
  (out.patient, out.med_code, out.med_description, out.obs_code)

/-- Erase the value of a timeline record to the NaN marker, keeping every
other field. -/
def setValNone (r : TimelineRecord) : TimelineRecord :=
  { r with value := none }

/-- A sample timeline record used in concrete instances: `days_relative` and
`obs_date` are `d`, the value is `v`, the units are `u`. -/
def sampleTR (p mc oc : String) (d : Int) (v : Option ℚ) (u : String) : TimelineRecord :=
  { patient := p
    med_code := mc
    med_description := mc
    med_start_date := 0
    obs_code := oc
    obs_description := oc
    obs_date := d
    days_relative := d
    value := v
    units := u }

theorem mem_uniqueFirst {α : Type} [DecidableEq α] (l : List α) (a : α) :
    a ∈ uniqueFirst l ↔ a ∈ l := by
  induction l using uniqueFirst.induct with
  | case1 => simp [uniqueFirst]
  | case2 b l ih =>
    rw [uniqueFirst]
    simp only [List.mem_cons, ih, List.mem_filter]
    by_cases hab : a = b
    · simp [hab]
    · simp [hab]

theorem nodup_uniqueFirst {α : Type} [DecidableEq α] (l : List α) :
    (uniqueFirst l).Nodup := by
  induction l using uniqueFirst.induct with
  | case1 => simp [uniqueFirst]
  | case2 b l ih =>
    rw [uniqueFirst]
    refine List.nodup_cons.mpr ⟨fun hmem => ?_, ih⟩
    have := (mem_uniqueFirst _ _).mp hmem
    simp [List.mem_filter] at this

/-- C5: the medication period normalizer emits exactly one period per input
medication record (no row dropped or merged, lengths equal, rows aligned
pairwise in order); a missing stop date becomes the sentinel maximum
representable date, any present stop date is kept unchanged, and every other
field is copied unchanged. -/
theorem medication_periods_normalize (meds : List MedicationRecord) :
    (create_medication_periods meds).length = meds.length ∧
    List.Forall₂ (fun (p m : MedicationRecord) => p.patient = m.patient ∧ p.code = m.code ∧
        p.description = m.description ∧ p.start = m.start ∧
        p.reasondescription = m.reasondescription ∧
        (m.stop = none → p.stop = some timestampMaxDay) ∧
        (∀ s, m.stop = some s → p.stop = some s))
      (create_medication_periods meds) meds := by
  constructor
  · simp [create_medication_periods, create_medication_periods_run]
  · show List.Forall₂ _ (meds.map fillStop) meds
    induction meds with
    | nil => simp
    | cons m rest ih =>
      refine List.Forall₂.cons ?_ ih
      cases hstop : m.stop <;>
        simp [fillStop, hstop]

theorem medication_periods_normalize_witness :
    (create_medication_periods
        [{ patient := "p", code := "c", description := "d", start := 0,
           stop := none, reasondescription := none },
         { patient := "p", code := "c2", description := "d2", start := 3,
           stop := some 9, reasondescription := none }]).length = 2 ∧
    List.Forall₂ (fun (p m : MedicationRecord) => p.patient = m.patient ∧ p.code = m.code ∧
        p.description = m.description ∧ p.start = m.start ∧
        p.reasondescription = m.reasondescription ∧
        (m.stop = none → p.stop = some timestampMaxDay) ∧
        (∀ s, m.stop = some s → p.stop = some s))
      (create_medication_periods
        [{ patient := "p", code := "c", description := "d", start := 0,
           stop := none, reasondescription := none },
         { patient := "p", code := "c2", description := "d2", start := 3,
           stop := some 9, reasondescription := none }])
      [{ patient := "p", code := "c", description := "d", start := 0,
         stop := none, reasondescription := none },
       { patient := "p", code := "c2", description := "d2", start := 3,
         stop := some 9, reasondescription := none }] :=
  medication_periods_normalize _

/-- C7 counterexample: the medication period normalizer does mutate its input
collection. On a one-row input whose stop date is missing, the state of the
collection of the caller after the call differs from the collection passed in (the
missing stop has been filled with the sentinel in place). -/
theorem medication_input_mutation_cex :
    create_medication_periods_inputAfter
        [{ patient := "p", code := "c", description := "d", start := 0,
           stop := none, reasondescription := none }] ≠
      [{ patient := "p", code := "c", description := "d", start := 0,
         stop := none, reasondescription := none }] := by
  decide

/-- C7 amended: the medication period normalizer fills missing stop dates into
its input collection in place and returns that same (updated) collection, so
after the call the input equals the returned collection rather than the
original; the in-place value-column reassignment of the outcome resolver leaves
the content of its input timeline collection unchanged. -/
theorem medication_input_mutation_amended (meds : List MedicationRecord)
    (tl : List TimelineRecord) :
    create_medication_periods_inputAfter meds = create_medication_periods meds ∧
    create_patient_medication_outcomes_inputAfter tl = tl := by
  refine ⟨rfl, ?_⟩
  show tl.map (fun r => r) = tl
  exact tl.map_id'

/-- C8: the pipeline is deterministic: running the three core stages on equal
input collections yields equal timeline and outcome collections (the
transformation uses no randomness and no wall clock). -/
theorem pipeline_deterministic (obs1 : List ObservationRecord)
    (meds1 : List MedicationRecord) (obs2 : List ObservationRecord)
    (meds2 : List MedicationRecord) (hobs : obs1 = obs2) (hmeds : meds1 = meds2) :
    runPipeline obs1 meds1 = runPipeline obs2 meds2 := by
  subst hobs
  subst hmeds
  rfl

theorem pipeline_deterministic_witness :
    runPipeline
        [{ patient := "p", code := "x", description := "glucose", date := 100,
           value := some 7, units := "u" }]
        [{ patient := "p", code := "c", description := "metformin", start := 50,
           stop := none, reasondescription := none }] =
      runPipeline
        [{ patient := "p", code := "x", description := "glucose", date := 100,
           value := some 7, units := "u" }]
        [{ patient := "p", code := "c", description := "metformin", start := 50,
           stop := none, reasondescription := none }] :=
  pipeline_deterministic _ _ _ _ rfl rfl

theorem mkTimelineRecord_eq_iff (m2 m : MedicationRecord) (o2 o : ObservationRecord) :
    mkTimelineRecord m2 o2 = mkTimelineRecord m o ↔
      o2 = o ∧ m2.code = m.code ∧ m2.description = m.description ∧ m2.start = m.start := by
  unfold mkTimelineRecord
  rw [TimelineRecord.mk.injEq]
  constructor
  · rintro ⟨h1, h2, h3, h4, h5, h6, h7, h8, h9, h10⟩
    refine ⟨?_, h2, h3, h4⟩
    cases o2
    cases o
    simp_all
  · rintro ⟨rfl, h2, h3, h4⟩
    simp [h2, h3, h4]

/-- Bool test: does the medication row `m2` carry the given patient and the
same timeline-visible fields (code, description, start) as `m`? -/
def medRowMatches (m : MedicationRecord) (p : String) (m2 : MedicationRecord) : Bool :=
  decide (m2.patient = p ∧ m2.code = m.code ∧ m2.description = m.description ∧
    m2.start = m.start)

theorem sum_map_eq_of_single {α : Type} (f : α → ℕ) (a : α) (K : List α)
    (hnd : K.Nodup) (ha : a ∈ K) (hz : ∀ b ∈ K, b ≠ a → f b = 0) :
    (K.map f).sum = f a := by
  induction K with
  | nil => simp at ha
  | cons b K ih =>
    rw [List.map_cons, List.sum_cons]
    rcases List.mem_cons.mp ha with rfl | haK
    · have hzro : ∀ c ∈ K.map f, c = 0 := by
        intro c hc
        rcases List.mem_map.mp hc with ⟨d, hd, rfl⟩
        refine hz d (List.mem_cons_of_mem _ hd) ?_
        rintro rfl
        exact (List.nodup_cons.mp hnd).1 hd
      rw [List.sum_eq_zero hzro]
      omega
    · have hb : f b = 0 := by
        refine hz b (List.mem_cons_self _ _) ?_
        rintro rfl
        exact (List.nodup_cons.mp hnd).1 haK
      rw [hb, ih (List.nodup_cons.mp hnd).2 haK
        (fun c hc hca => hz c (List.mem_cons_of_mem _ hc) hca)]
      omega

theorem sum_map_ite_count {α : Type} (q : α → Bool) (C : ℕ) (L : List α)
    (f : α → ℕ) (hf : ∀ b ∈ L, f b = if q b then C else 0) :
    (L.map f).sum = L.countP q * C := by
  induction L with
  | nil => simp
  | cons b L ih =>
    rw [List.map_cons, List.sum_cons, ih (fun c hc => hf c (List.mem_cons_of_mem _ hc)),
      hf b (List.mem_cons_self _ _), List.countP_cons]
    by_cases hb : q b <;> simp [hb, Nat.add_mul, Nat.add_comm]

theorem patientTimeline_count (obs : List ObservationRecord)
    (meds : List MedicationRecord) (m : MedicationRecord) (o : ObservationRecord) :
    (patientTimeline obs meds o.patient).countP
        (fun r => r == mkTimelineRecord m o)
      = meds.countP (medRowMatches m o.patient) *
        obs.countP (fun o2 => o2 == o) := by
  by_cases hq : (meds.filter (fun m2 => decide (m2.patient = o.patient))).length = 0
  · have hempty : meds.filter (fun m2 => decide (m2.patient = o.patient)) = [] :=
      List.length_eq_zero.mp hq
    have hz : meds.countP (medRowMatches m o.patient) = 0 := by
      refine List.countP_eq_zero.mpr ?_
      intro m2 hm2 hmatch
      have hpat : m2.patient = o.patient := by
        have := of_decide_eq_true (by
          simpa [medRowMatches] using hmatch)
        exact this.1
      have : m2 ∈ meds.filter (fun m2 => decide (m2.patient = o.patient)) :=
        List.mem_filter.mpr ⟨hm2, by simp [hpat]⟩
      rw [hempty] at this
      simp at this
    rw [hz, Nat.zero_mul]
    simp [patientTimeline, hq]
  · have hcnt : (patientTimeline obs meds o.patient).countP
        (fun r => r == mkTimelineRecord m o)
        = ((meds.filter (fun m2 => decide (m2.patient = o.patient))).map
            (fun m2 => (obs.filter (fun o2 => decide (o2.patient = o.patient))).countP
              (fun o2 => mkTimelineRecord m2 o2 == mkTimelineRecord m o))).sum := by
      simp only [patientTimeline, hq, if_false]
      rw [List.countP_flatMap]
      congr 1
      refine List.map_congr_left ?_
      intro m2 _
      simp only [Function.comp_apply]
      rw [List.countP_map]
      rfl
    rw [hcnt]
    rw [sum_map_ite_count (medRowMatches m o.patient) (obs.countP (fun o2 => o2 == o)) _ _ ?_]
    · rw [List.countP_filter, List.countP_congr]
      intro m2 _
      constructor
      · intro hand
        exact (Bool.and_eq_true _ _).mp hand |>.1
      · intro hmatch
        refine (Bool.and_eq_true _ _).mpr ⟨hmatch, ?_⟩
        have := of_decide_eq_true (by simpa [medRowMatches] using hmatch)
        simp [this.1]
    · intro m2 hm2
      have hm2pat : m2.patient = o.patient := by
        simpa using (List.mem_filter.mp hm2).2
      by_cases hmtch : medRowMatches m o.patient m2
      · rw [if_pos hmtch]
        have hfields := of_decide_eq_true (by simpa [medRowMatches] using hmtch)
        rw [List.countP_filter, List.countP_congr]
        intro o2 _
        constructor
        · intro hand
          have h1 := (Bool.and_eq_true _ _).mp hand |>.1
          have : mkTimelineRecord m2 o2 = mkTimelineRecord m o := by
            exact eq_of_beq h1
          have ho2 := (mkTimelineRecord_eq_iff _ _ _ _).mp this |>.1
          simp [ho2]
        · intro hbeq
          have ho2 : o2 = o := eq_of_beq hbeq
          refine (Bool.and_eq_true _ _).mpr ⟨?_, by simp [ho2]⟩
          refine beq_iff_eq.mpr ?_
          exact (mkTimelineRecord_eq_iff _ _ _ _).mpr
            ⟨ho2, hfields.2.1, hfields.2.2.1, hfields.2.2.2⟩
      · rw [if_neg hmtch]
        refine List.countP_eq_zero.mpr ?_
        intro o2 _ hbeq
        have heq : mkTimelineRecord m2 o2 = mkTimelineRecord m o := eq_of_beq hbeq
        have hf := (mkTimelineRecord_eq_iff _ _ _ _).mp heq
        exact hmtch (by
          refine decide_eq_true ?_
          exact ⟨hm2pat, hf.2.1, hf.2.2.1, hf.2.2.2⟩)

theorem patientTimeline_count_ne (obs : List ObservationRecord)
    (meds : List MedicationRecord) (m : MedicationRecord) (o : ObservationRecord)
    (p : String) (hne : p ≠ o.patient) :
    (patientTimeline obs meds p).countP (fun r => r == mkTimelineRecord m o) = 0 := by
  refine List.countP_eq_zero.mpr ?_
  intro r hr hbeq
  have heq : r = mkTimelineRecord m o := eq_of_beq hbeq
  unfold patientTimeline at hr
  by_cases hq : (meds.filter (fun m2 => decide (m2.patient = p))).length = 0
  · simp [hq] at hr
  · simp only [hq, if_false] at hr
    rcases List.mem_flatMap.mp hr with ⟨m2, _, hro⟩
    rcases List.mem_map.mp hro with ⟨o2, ho2, rfl⟩
    have ho2p : o2.patient = p := by
      simpa using (List.mem_filter.mp ho2).2
    have ho2o : o2 = o := ((mkTimelineRecord_eq_iff _ _ _ _).mp heq).1
    exact hne (by rw [← ho2p, ho2o])

/-- C1: for every (patient, medication period, observation) triple whose
patient occurs in both collections, the timeline builder emits exactly one
timeline record for the triple (counted as the one row per medication row and
observation row, under the uniqueness of those rows), and its `days_relative`
is the signed day difference between the observation date and the start date of
that period; and for a patient absent from the medication collection it emits
no record at all, even if that patient has observations. -/
theorem timeline_cross_product_unique (obs : List ObservationRecord)
    (meds : List MedicationRecord) :
    (∀ (m : MedicationRecord) (o : ObservationRecord), m ∈ meds → o ∈ obs →
      o.patient = m.patient →
      meds.countP (medRowMatches m o.patient) = 1 →
      obs.countP (fun o2 => o2 == o) = 1 →
      (create_observation_timeline obs meds).countP
          (fun r => r == mkTimelineRecord m o) = 1 ∧
      (mkTimelineRecord m o).days_relative = o.date - m.start) ∧
    (∀ q : String, (∀ m2 ∈ meds, m2.patient ≠ q) →
      ∀ r ∈ create_observation_timeline obs meds, r.patient ≠ q) := by
  constructor
  · intro m o hm ho hpat hmu hou
    refine ⟨?_, rfl⟩
    have hobs : obs.isEmpty = false := by
      cases obs
      · simp at ho
      · rfl
    have hmeds : meds.isEmpty = false := by
      cases meds
      · simp at hm
      · rfl
    rw [create_observation_timeline, hobs, hmeds]
    rw [if_neg (by simp : ¬ ((false || false) = true))]
    rw [List.countP_flatMap]
    have hmem : o.patient ∈ uniqueFirst (obs.map (fun o2 => o2.patient)) := by
      rw [mem_uniqueFirst]
      exact List.mem_map.mpr ⟨o, ho, rfl⟩
    rw [sum_map_eq_of_single _ o.patient _
      (nodup_uniqueFirst _) hmem ?_]
    · show (patientTimeline obs meds o.patient).countP _ = 1
      rw [patientTimeline_count obs meds m o, hmu, hou]
    · intro p _ hne
      exact patientTimeline_count_ne obs meds m o p hne
  · intro q hq r hr
    rw [create_observation_timeline] at hr
    by_cases hg : (obs.isEmpty || meds.isEmpty) = true
    · simp [hg] at hr
    · simp only [hg, if_false] at hr
      rcases List.mem_flatMap.mp hr with ⟨p, _, hrp⟩
      unfold patientTimeline at hrp
      by_cases hq2 : (meds.filter (fun m2 => decide (m2.patient = p))).length = 0
      · simp [hq2] at hrp
      · simp only [hq2, if_false] at hrp
        rcases List.mem_flatMap.mp hrp with ⟨m2, hm2, hro⟩
        rcases List.mem_map.mp hro with ⟨o2, ho2, rfl⟩
        have hm2mem : m2 ∈ meds := (List.mem_filter.mp hm2).1
        have hm2p : m2.patient = p := by
          simpa using (List.mem_filter.mp hm2).2
        have ho2p : o2.patient = p := by
          simpa using (List.mem_filter.mp ho2).2
        show ¬ o2.patient = q
        rw [ho2p, ← hm2p]
        exact hq m2 hm2mem

theorem timeline_cross_product_unique_witness :
    (create_observation_timeline
        [{ patient := "p", code := "x", description := "glucose", date := 100,
           value := some 7, units := "u" }]
        [{ patient := "p", code := "c", description := "metformin", start := 50,
           stop := none, reasondescription := none }]).countP
        (fun r => r == mkTimelineRecord
          { patient := "p", code := "c", description := "metformin", start := 50,
            stop := none, reasondescription := none }
          { patient := "p", code := "x", description := "glucose", date := 100,
            value := some 7, units := "u" }) = 1 ∧
    (mkTimelineRecord
        { patient := "p", code := "c", description := "metformin", start := 50,
          stop := none, reasondescription := none }
        { patient := "p", code := "x", description := "glucose", date := 100,
          value := some 7, units := "u" }).days_relative = 100 - 50 :=
  (timeline_cross_product_unique _ _).1 _ _ (by decide) (by decide) (by decide)
    (by decide) (by decide)

theorem sortByDays_perm (g : List TimelineRecord) : (sortByDays g).Perm g :=
  List.perm_insertionSort daysLE g

theorem mem_sortByDays {r : TimelineRecord} {g : List TimelineRecord} :
    r ∈ sortByDays g ↔ r ∈ g :=
  (sortByDays_perm g).mem_iff

theorem sortByDays_sorted (g : List TimelineRecord) :
    List.Sorted daysLE (sortByDays g) :=
  List.sorted_insertionSort daysLE g

theorem sorted_le_getLast (l : List TimelineRecord) (hs : List.Sorted daysLE l)
    (x : TimelineRecord) (hx : x ∈ l) (y : TimelineRecord) (hy : l.getLast? = some y) :
    x.days_relative ≤ y.days_relative := by
  induction l with
  | nil => simp at hx
  | cons a t ih =>
    rcases List.mem_cons.mp hx with rfl | hxt
    · cases t with
      | nil =>
        have : y = x := by
          simpa using hy.symm
        simp [this]
      | cons b t2 =>
        rw [List.getLast?_cons_cons] at hy
        have hyt : y ∈ b :: t2 := List.mem_of_mem_getLast? hy
        exact (List.sorted_cons.mp hs).1 y hyt
    · cases t with
      | nil => simp at hxt
      | cons b t2 =>
        rw [List.getLast?_cons_cons] at hy
        exact ih (List.sorted_cons.mp hs).2 hxt hy


theorem argminFirst_eq_none {f : TimelineRecord → Int} {l : List TimelineRecord} :
    argminFirst f l = none ↔ l = [] := by
  cases l with
  | nil => simp [argminFirst]
  | cons r rs =>
    constructor
    · intro h
      cases hrec : argminFirst f rs with
      | none => simp [argminFirst, hrec] at h
      | some m2 =>
        simp only [argminFirst, hrec] at h
        by_cases hb : f r ≤ f m2 <;> simp [hb] at h
    · intro h
      simp at h

theorem argminFirst_mem {f : TimelineRecord → Int} :
    ∀ (l : List TimelineRecord) (m : TimelineRecord),
      argminFirst f l = some m → m ∈ l := by
  intro l
  induction l with
  | nil =>
    intro m h
    simp [argminFirst] at h
  | cons r rs ih =>
    intro m h
    cases hrec : argminFirst f rs with
    | none =>
      simp only [argminFirst, hrec, Option.some.injEq] at h
      exact List.mem_cons.mpr (Or.inl h.symm)
    | some m2 =>
      simp only [argminFirst, hrec] at h
      by_cases hle : f r ≤ f m2
      · rw [if_pos hle, Option.some.injEq] at h
        exact List.mem_cons.mpr (Or.inl h.symm)
      · rw [if_neg hle, Option.some.injEq] at h
        subst h
        exact List.mem_cons.mpr (Or.inr (ih m2 hrec))

theorem argminFirst_min {f : TimelineRecord → Int} :
    ∀ (l : List TimelineRecord) (m : TimelineRecord),
      argminFirst f l = some m → ∀ r ∈ l, f m ≤ f r := by
  intro l
  induction l with
  | nil =>
    intro m h
    simp [argminFirst] at h
  | cons r rs ih =>
    intro m h x hx
    cases hrec : argminFirst f rs with
    | none =>
      simp only [argminFirst, hrec, Option.some.injEq] at h
      have hrs : rs = [] := argminFirst_eq_none.mp hrec
      subst hrs
      rcases List.mem_cons.mp hx with rfl | hx2
      · simp [h]
      · simp at hx2
    | some m2 =>
      simp only [argminFirst, hrec] at h
      by_cases hle : f r ≤ f m2
      · rw [if_pos hle, Option.some.injEq] at h
        subst h
        rcases List.mem_cons.mp hx with rfl | hx2
        · exact le_refl _
        · exact le_trans hle (ih m2 hrec x hx2)
      · rw [if_neg hle, Option.some.injEq] at h
        subst h
        rcases List.mem_cons.mp hx with rfl | hx2
        · exact le_of_lt (lt_of_not_le hle)
        · exact ih m2 hrec x hx2

theorem argminFirst_first_tie :
    ∀ (l : List TimelineRecord) (m : TimelineRecord), List.Sorted daysLE l →
      argminFirst daysDiff l = some m →
      ∀ r ∈ l, daysDiff r = daysDiff m → m.days_relative ≤ r.days_relative := by
  intro l
  induction l with
  | nil =>
    intro m _ h
    simp [argminFirst] at h
  | cons r rs ih =>
    intro m hs h x hx htie
    cases hrec : argminFirst daysDiff rs with
    | none =>
      simp only [argminFirst, hrec, Option.some.injEq] at h
      subst h
      rcases List.mem_cons.mp hx with rfl | hx2
      · exact le_refl _
      · exact (List.sorted_cons.mp hs).1 x hx2
    | some m2 =>
      simp only [argminFirst, hrec] at h
      by_cases hle : daysDiff r ≤ daysDiff m2
      · rw [if_pos hle, Option.some.injEq] at h
        subst h
        rcases List.mem_cons.mp hx with rfl | hx2
        · exact le_refl _
        · exact (List.sorted_cons.mp hs).1 x hx2
      · rw [if_neg hle, Option.some.injEq] at h
        subst h
        rcases List.mem_cons.mp hx with rfl | hx2
        · exact absurd htie.le hle
        · exact ih m2 (List.sorted_cons.mp hs).2 hrec x hx2 htie

theorem selectPre_spec {g : List TimelineRecord} {pre : TimelineRecord}
    (h : selectPre g = some pre) :
    pre ∈ g ∧ pre.days_relative ≤ 0 ∧
      ∀ r ∈ g, r.days_relative ≤ 0 → r.days_relative ≤ pre.days_relative := by
  have hmem : pre ∈ preCandidates g := List.mem_of_mem_getLast? h
  have hfilter := List.mem_filter.mp hmem
  refine ⟨mem_sortByDays.mp hfilter.1, by simpa using hfilter.2, ?_⟩
  intro r hr hrle
  have hrs : r ∈ preCandidates g :=
    List.mem_filter.mpr ⟨mem_sortByDays.mpr hr, by simpa using hrle⟩
  have hsorted : List.Sorted daysLE (preCandidates g) :=
    (sortByDays_sorted g).filter _
  exact sorted_le_getLast _ hsorted r hrs pre h

theorem selectPre_none {g : List TimelineRecord}
    (h : ∀ r ∈ g, ¬ r.days_relative ≤ 0) : selectPre g = none := by
  have hnil : preCandidates g = [] := List.filter_eq_nil_iff.mpr (fun r hr => by
    simpa using h r (mem_sortByDays.mp hr))
  unfold selectPre
  rw [hnil]
  rfl

theorem selectPost_spec {g : List TimelineRecord} {post : TimelineRecord}
    (h : selectPost g = some post) :
    post ∈ g ∧ 0 < post.days_relative ∧
      (∀ r ∈ g, 0 < r.days_relative → daysDiff post ≤ daysDiff r) ∧
      (∀ r ∈ g, 0 < r.days_relative → daysDiff r = daysDiff post →
        post.days_relative ≤ r.days_relative) := by
  have hmem : post ∈ postCandidates g := argminFirst_mem _ _ h
  have hfilter := List.mem_filter.mp hmem
  have hsorted : List.Sorted daysLE (postCandidates g) :=
    (sortByDays_sorted g).filter _
  refine ⟨mem_sortByDays.mp hfilter.1, by simpa using hfilter.2, ?_, ?_⟩
  · intro r hr hrpos
    exact argminFirst_min _ _ h r
      (List.mem_filter.mpr ⟨mem_sortByDays.mpr hr, by simpa using hrpos⟩)
  · intro r hr hrpos htie
    exact argminFirst_first_tie _ _ hsorted h r
      (List.mem_filter.mpr ⟨mem_sortByDays.mpr hr, by simpa using hrpos⟩) htie

theorem selectPost_none {g : List TimelineRecord}
    (h : ∀ r ∈ g, ¬ 0 < r.days_relative) : selectPost g = none := by
  have hnil : postCandidates g = [] := List.filter_eq_nil_iff.mpr (fun r hr => by
    simpa using h r (mem_sortByDays.mp hr))
  unfold selectPost
  rw [hnil]
  rfl

theorem processGroup_eq_some {g : List TimelineRecord} {out : OutcomeRecord}
    (h : processGroup g = some out) :
    2 ≤ g.length ∧ ∃ r0 pre post, g.head? = some r0 ∧ selectPre g = some pre ∧
      selectPost g = some post ∧ out = mkOutcome r0 pre post := by
  unfold processGroup at h
  by_cases hlen : g.length < 2
  · rw [if_pos hlen] at h
    simp at h
  · rw [if_neg hlen] at h
    refine ⟨le_of_not_lt hlen, ?_⟩
    cases h0 : g.head? with
    | none =>
      rw [h0] at h
      simp at h
    | some r0 =>
      cases h1 : selectPre g with
      | none =>
        rw [h0, h1] at h
        simp at h
      | some pre =>
        cases h2 : selectPost g with
        | none =>
          rw [h0, h1, h2] at h
          simp at h
        | some post =>
          rw [h0, h1, h2] at h
          simp only [Option.some.injEq] at h
          exact ⟨r0, pre, post, rfl, rfl, rfl, h.symm⟩

theorem processGroup_skip {g : List TimelineRecord}
    (h : g.length < 2 ∨ (∀ r ∈ g, ¬ r.days_relative ≤ 0) ∨
      (∀ r ∈ g, ¬ 0 < r.days_relative)) :
    processGroup g = none := by
  rcases h with h | h | h
  · unfold processGroup
    rw [if_pos h]
  · unfold processGroup
    by_cases hlen : g.length < 2
    · rw [if_pos hlen]
    · rw [if_neg hlen, selectPre_none h]
      cases g.head? <;> cases selectPost g <;> rfl
  · unfold processGroup
    by_cases hlen : g.length < 2
    · rw [if_pos hlen]
    · rw [if_neg hlen, selectPost_none h]
      cases g.head? <;> cases selectPre g <;> rfl

theorem processGroup_key {g : List TimelineRecord}
    {k : String × String × String × String}
    (hg : ∀ r ∈ g, outcomeKey r = k) {out : OutcomeRecord}
    (h : processGroup g = some out) : outKey out = k := by
  obtain ⟨hlen, r0, pre, post, h0, h1, h2, hout⟩ := processGroup_eq_some h
  have hr0 : r0 ∈ g := by
    cases g with
    | nil => simp at h0
    | cons a t =>
      rw [List.head?_cons, Option.some.injEq] at h0
      exact List.mem_cons.mpr (Or.inl h0.symm)
  have hkey := hg r0 hr0
  subst hout
  exact hkey

theorem mem_outcomes {tl : List TimelineRecord} {out : OutcomeRecord}
    (h : out ∈ create_patient_medication_outcomes tl) :
    ∃ k, processGroup (groupOf tl k) = some out ∧ outKey out = k := by
  unfold create_patient_medication_outcomes at h
  rcases List.mem_filterMap.mp h with ⟨k, hk, hpk⟩
  refine ⟨k, hpk, ?_⟩
  refine processGroup_key ?_ hpk
  intro r hr
  have hmem := (List.mem_filter.mp hr).2
  simpa using hmem

/-- C2: for every outcome-resolver group that yields an outcome, the selected
pre record is a group record with `days_relative ≤ 0` whose `days_relative` is
largest among the records of the group with `days_relative ≤ 0` (the most recent
observation at or before medication start), and its value and date are the
emitted pre fields; a group with no record with `days_relative ≤ 0` produces
no outcome record. -/
theorem outcome_pre_selection (tl : List TimelineRecord)
    (k : String × String × String × String) :
    (∀ out, processGroup (groupOf tl k) = some out →
      ∃ pre, selectPre (groupOf tl k) = some pre ∧ pre ∈ groupOf tl k ∧
        pre.days_relative ≤ 0 ∧
        (∀ r ∈ groupOf tl k, r.days_relative ≤ 0 →
          r.days_relative ≤ pre.days_relative) ∧
        out.pre_value = pre.value ∧ out.pre_date = pre.obs_date) ∧
    ((∀ r ∈ groupOf tl k, ¬ r.days_relative ≤ 0) →
      processGroup (groupOf tl k) = none) := by
  constructor
  · intro out hout
    obtain ⟨hlen, r0, pre, post, h0, h1, h2, rfl⟩ := processGroup_eq_some hout
    obtain ⟨hmem, hle, hmax⟩ := selectPre_spec h1
    exact ⟨pre, h1, hmem, hle, hmax, rfl, rfl⟩
  · intro h
    exact processGroup_skip (Or.inr (Or.inl h))

theorem outcome_pre_selection_witness :
    processGroup (groupOf [sampleTR "P" "M" "X" (-31) none "u",
        sampleTR "P" "M" "X" 182 none "u"] ("P", "M", "M", "X")) =
      some (mkOutcome (sampleTR "P" "M" "X" (-31) none "u")
        (sampleTR "P" "M" "X" (-31) none "u")
        (sampleTR "P" "M" "X" 182 none "u")) ∧
    ∃ pre, selectPre (groupOf [sampleTR "P" "M" "X" (-31) none "u",
        sampleTR "P" "M" "X" 182 none "u"] ("P", "M", "M", "X")) = some pre ∧
      pre.days_relative ≤ 0 := by
  constructor
  · decide
  · obtain ⟨pre, h1, _, h3, _, _, _⟩ :=
      (outcome_pre_selection [sampleTR "P" "M" "X" (-31) none "u",
        sampleTR "P" "M" "X" 182 none "u"] ("P", "M", "M", "X")).1
        (mkOutcome (sampleTR "P" "M" "X" (-31) none "u")
          (sampleTR "P" "M" "X" (-31) none "u")
          (sampleTR "P" "M" "X" 182 none "u")) (by decide)
    exact ⟨pre, h1, h3⟩

/-- C3: for every outcome-resolver group that yields an outcome, the selected
post record is a group record with `days_relative > 0` minimizing
`|days_relative − 180|`, with ties broken toward the smaller `days_relative`
(the first minimal element in ascending `days_relative` order), and its value,
date and `days_relative` are the emitted post fields; a group with no record
with `days_relative > 0` produces no outcome record; and on the concrete
post-candidate offsets {10, 175, 185, 400} the record at offset 175 is
selected. -/
theorem outcome_post_selection (tl : List TimelineRecord)
    (k : String × String × String × String) :
    (∀ out, processGroup (groupOf tl k) = some out →
      ∃ post, selectPost (groupOf tl k) = some post ∧ post ∈ groupOf tl k ∧
        0 < post.days_relative ∧
        (∀ r ∈ groupOf tl k, 0 < r.days_relative → daysDiff post ≤ daysDiff r) ∧
        (∀ r ∈ groupOf tl k, 0 < r.days_relative → daysDiff r = daysDiff post →
          post.days_relative ≤ r.days_relative) ∧
        out.post_value = post.value ∧ out.post_date = post.obs_date ∧
        out.days_between = post.days_relative) ∧
    ((∀ r ∈ groupOf tl k, ¬ 0 < r.days_relative) →
      processGroup (groupOf tl k) = none) ∧
    Option.map (fun out => out.days_between)
      (processGroup [sampleTR "P" "M" "X" (-5) (some 1) "u",
        sampleTR "P" "M" "X" 10 (some 1) "u",
        sampleTR "P" "M" "X" 175 (some 2) "u",
        sampleTR "P" "M" "X" 185 (some 3) "u",
        sampleTR "P" "M" "X" 400 (some 4) "u"]) = some 175 := by
  refine ⟨?_, ?_, by decide⟩
  · intro out hout
    obtain ⟨hlen, r0, pre, post, h0, h1, h2, rfl⟩ := processGroup_eq_some hout
    obtain ⟨hmem, hpos, hmin, htie⟩ := selectPost_spec h2
    exact ⟨post, h2, hmem, hpos, hmin, htie, rfl, rfl, rfl⟩
  · intro h
    exact processGroup_skip (Or.inr (Or.inr h))

theorem outcome_post_selection_witness :
    processGroup (groupOf [sampleTR "P" "M" "X" (-5) none "u",
        sampleTR "P" "M" "X" 10 none "u",
        sampleTR "P" "M" "X" 175 none "u",
        sampleTR "P" "M" "X" 185 none "u",
        sampleTR "P" "M" "X" 400 none "u"] ("P", "M", "M", "X")) =
      some (mkOutcome (sampleTR "P" "M" "X" (-5) none "u")
        (sampleTR "P" "M" "X" (-5) none "u")
        (sampleTR "P" "M" "X" 175 none "u")) ∧
    ∃ post, selectPost (groupOf [sampleTR "P" "M" "X" (-5) none "u",
        sampleTR "P" "M" "X" 10 none "u",
        sampleTR "P" "M" "X" 175 none "u",
        sampleTR "P" "M" "X" 185 none "u",
        sampleTR "P" "M" "X" 400 none "u"] ("P", "M", "M", "X")) = some post ∧
      0 < post.days_relative := by
  constructor
  · decide
  · obtain ⟨post, h1, _, h3, _, _, _, _, _⟩ :=
      (outcome_post_selection [sampleTR "P" "M" "X" (-5) none "u",
        sampleTR "P" "M" "X" 10 none "u",
        sampleTR "P" "M" "X" 175 none "u",
        sampleTR "P" "M" "X" 185 none "u",
        sampleTR "P" "M" "X" 400 none "u"] ("P", "M", "M", "X")).1
        (mkOutcome (sampleTR "P" "M" "X" (-5) none "u")
          (sampleTR "P" "M" "X" (-5) none "u")
          (sampleTR "P" "M" "X" 175 none "u")) (by decide)
    exact ⟨post, h1, h3⟩

/-- C4: a group with fewer than 2 timeline records, or with no record with
`days_relative ≤ 0`, or with no record with `days_relative > 0`, contributes
zero outcome records: its per-group computation returns `none` and no emitted
outcome record carries its key. (The embedding is a total function: no
exception is raised for any such group.) -/
theorem outcome_group_skip (tl : List TimelineRecord)
    (k : String × String × String × String)
    (h : (groupOf tl k).length < 2 ∨ (∀ r ∈ groupOf tl k, ¬ r.days_relative ≤ 0) ∨
      (∀ r ∈ groupOf tl k, ¬ 0 < r.days_relative)) :
    processGroup (groupOf tl k) = none ∧
    ∀ out ∈ create_patient_medication_outcomes tl, outKey out ≠ k := by
  refine ⟨processGroup_skip h, ?_⟩
  intro out hout hkey
  rcases mem_outcomes hout with ⟨k2, hpk, hok⟩
  have hk2 : k2 = k := by rw [← hok, hkey]
  rw [hk2, processGroup_skip h] at hpk
  exact Option.noConfusion hpk

theorem outcome_group_skip_witness :
    processGroup (groupOf [sampleTR "P" "M" "X" 5 (some 1) "u"]
      ("P", "M", "M", "X")) = none ∧
    ∀ out ∈ create_patient_medication_outcomes [sampleTR "P" "M" "X" 5 (some 1) "u"],
      outKey out ≠ ("P", "M", "M", "X") :=
  outcome_group_skip _ _ (Or.inl (by decide))

/-- C6: for every emitted outcome record, `change` is the post value minus the
pre value and `percent_change` is `change / pre × 100`, computed by the total
functions `computeChange`/`computePercentChange`; both are the NaN marker
(`none`) when either selected value is non-numeric, and `percent_change` is
the NaN marker (not a crash, not zero) when the pre value is exactly 0. -/
theorem outcome_change_fields (tl : List TimelineRecord)
    (k : String × String × String × String) (out : OutcomeRecord)
    (pre post : TimelineRecord)
    (hout : processGroup (groupOf tl k) = some out)
    (hpre : selectPre (groupOf tl k) = some pre)
    (hpost : selectPost (groupOf tl k) = some post) :
    out.pre_value = pre.value ∧ out.post_value = post.value ∧
    out.change = computeChange pre.value post.value ∧
    out.percent_change = computePercentChange pre.value post.value ∧
    (∀ a b : ℚ, pre.value = some a → post.value = some b →
      out.change = some (b - a) ∧
      (a ≠ 0 → out.percent_change = some ((b - a) / a * 100))) ∧
    ((pre.value = none ∨ post.value = none) →
      out.change = none ∧ out.percent_change = none) ∧
    (pre.value = some 0 → out.percent_change = none) := by
  obtain ⟨hlen, r0, pre2, post2, h0, h1, h2, rfl⟩ := processGroup_eq_some hout
  have hpp : pre2 = pre := by
    rw [h1] at hpre
    exact (Option.some.injEq _ _).mp hpre
  have hqq : post2 = post := by
    rw [h2] at hpost
    exact (Option.some.injEq _ _).mp hpost
  subst hpp
  subst hqq
  refine ⟨rfl, rfl, rfl, rfl, ?_, ?_, ?_⟩
  · intro a b ha hb
    constructor
    · show computeChange pre2.value post2.value = some (b - a)
      rw [ha, hb]
      rfl
    · intro hane
      show computePercentChange pre2.value post2.value = some ((b - a) / a * 100)
      rw [ha, hb]
      simp [computePercentChange, hane]
  · intro hcase
    rcases hcase with hc | hc
    · constructor
      · show computeChange pre2.value post2.value = none
        rw [hc]
        cases post2.value <;> rfl
      · show computePercentChange pre2.value post2.value = none
        rw [hc]
        cases post2.value <;> rfl
    · constructor
      · show computeChange pre2.value post2.value = none
        rw [hc]
        cases pre2.value <;> rfl
      · show computePercentChange pre2.value post2.value = none
        rw [hc]
        cases pre2.value <;> rfl
  · intro h0v
    show computePercentChange pre2.value post2.value = none
    rw [h0v]
    cases post2.value with
    | none => rfl
    | some b => simp [computePercentChange]

theorem outcome_change_fields_witness :
    ∃ out, processGroup (groupOf [sampleTR "P" "M" "X" (-1) (some 0) "u",
        sampleTR "P" "M" "X" 100 (some 5) "u"] ("P", "M", "M", "X")) = some out ∧
      out.percent_change = none := by
  obtain ⟨out, hout⟩ := Option.isSome_iff_exists.mp
    (by decide : (processGroup (groupOf [sampleTR "P" "M" "X" (-1) (some 0) "u",
      sampleTR "P" "M" "X" 100 (some 5) "u"] ("P", "M", "M", "X"))).isSome = true)
  have h := outcome_change_fields
    [sampleTR "P" "M" "X" (-1) (some 0) "u", sampleTR "P" "M" "X" 100 (some 5) "u"]
    ("P", "M", "M", "X") out
    (sampleTR "P" "M" "X" (-1) (some 0) "u")
    (sampleTR "P" "M" "X" 100 (some 5) "u")
    hout (by decide) (by decide)
  exact ⟨out, hout, h.2.2.2.2.2.2 rfl⟩

/-- C10: for every emitted outcome record, the metric description and units
are copied from the first timeline record of the group in its original
(pre-sort) order, not from the selected pre or post record; on a concrete
group whose first record carries units different from those of the selected pre
record, the emitted units differ from the units of the pre record. -/
theorem outcome_desc_units_from_first (tl : List TimelineRecord)
    (k : String × String × String × String) :
    (∀ r0 out, (groupOf tl k).head? = some r0 →
      processGroup (groupOf tl k) = some out →
      out.obs_description = r0.obs_description ∧ out.units = r0.units) ∧
    (∃ out pre, processGroup [sampleTR "P" "M" "X" 5 none "A",
        sampleTR "P" "M" "X" (-3) none "B"] = some out ∧
      selectPre [sampleTR "P" "M" "X" 5 none "A",
        sampleTR "P" "M" "X" (-3) none "B"] = some pre ∧
      out.units ≠ pre.units) := by
  constructor
  · intro r0 out h0 hout
    obtain ⟨hlen, r1, pre, post, h1, h2, h3, rfl⟩ := processGroup_eq_some hout
    have hr : r1 = r0 := by
      rw [h1] at h0
      exact (Option.some.injEq _ _).mp h0
    subst hr
    exact ⟨rfl, rfl⟩
  · exact ⟨mkOutcome (sampleTR "P" "M" "X" 5 none "A")
      (sampleTR "P" "M" "X" (-3) none "B")
      (sampleTR "P" "M" "X" 5 none "A"),
      sampleTR "P" "M" "X" (-3) none "B", by decide, by decide, by decide⟩

theorem outcome_desc_units_from_first_witness :
    (mkOutcome (sampleTR "P" "M" "X" 5 none "A")
      (sampleTR "P" "M" "X" (-3) none "B")
      (sampleTR "P" "M" "X" 5 none "A")).units =
      (sampleTR "P" "M" "X" 5 none "A").units := by
  have h := (outcome_desc_units_from_first
      [sampleTR "P" "M" "X" 5 none "A", sampleTR "P" "M" "X" (-3) none "B"]
      ("P", "M", "M", "X")).1
    (sampleTR "P" "M" "X" 5 none "A")
    (mkOutcome (sampleTR "P" "M" "X" 5 none "A")
      (sampleTR "P" "M" "X" (-3) none "B")
      (sampleTR "P" "M" "X" 5 none "A"))
    (by decide) (by decide)
  exact h.2

theorem sortByDays_map_setValNone (g : List TimelineRecord) :
    sortByDays (g.map setValNone) = (sortByDays g).map setValNone := by
  unfold sortByDays
  exact (List.map_insertionSort daysLE daysLE setValNone g (fun a _ b _ => Iff.rfl)).symm

theorem preCandidates_map_setValNone (g : List TimelineRecord) :
    preCandidates (g.map setValNone) = (preCandidates g).map setValNone := by
  unfold preCandidates
  rw [sortByDays_map_setValNone, List.filter_map]
  rfl

theorem postCandidates_map_setValNone (g : List TimelineRecord) :
    postCandidates (g.map setValNone) = (postCandidates g).map setValNone := by
  unfold postCandidates
  rw [sortByDays_map_setValNone, List.filter_map]
  rfl

theorem selectPre_map_setValNone (g : List TimelineRecord) :
    selectPre (g.map setValNone) = (selectPre g).map setValNone := by
  unfold selectPre
  rw [preCandidates_map_setValNone, List.getLast?_map]

theorem argminFirst_map_setValNone (f : TimelineRecord → Int)
    (hf : ∀ r, f (setValNone r) = f r) :
    ∀ l : List TimelineRecord,
      argminFirst f (l.map setValNone) = (argminFirst f l).map setValNone := by
  intro l
  induction l with
  | nil => rfl
  | cons r rs ih =>
    simp only [List.map_cons, argminFirst, ih]
    cases argminFirst f rs with
    | none => rfl
    | some m =>
      simp only [Option.map_some']
      rw [hf r, hf m]
      by_cases h : f r ≤ f m <;> simp [h]

theorem selectPost_map_setValNone (g : List TimelineRecord) :
    selectPost (g.map setValNone) = (selectPost g).map setValNone := by
  unfold selectPost
  rw [postCandidates_map_setValNone]
  exact argminFirst_map_setValNone daysDiff (fun r => rfl) _

theorem groupOf_map_setValNone (tl : List TimelineRecord)
    (k : String × String × String × String) :
    groupOf (tl.map setValNone) k = (groupOf tl k).map setValNone := by
  unfold groupOf
  rw [List.filter_map]
  rfl

/-- C9: pre/post selection never filters on value validity: erasing every
observation value of the timeline to the NaN marker changes the size of no group
(NaN-valued records count toward the at-least-2 threshold), selects the same
pre and post records (modulo their erased value field), and emits an outcome
record exactly when the original does — with NaN pre/post values and NaN
change and percent_change — rather than skipping the group or preferring a
numeric record. -/
theorem outcome_value_blind (tl : List TimelineRecord)
    (k : String × String × String × String) :
    (groupOf (tl.map setValNone) k).length = (groupOf tl k).length ∧
    selectPre (groupOf (tl.map setValNone) k) =
      (selectPre (groupOf tl k)).map setValNone ∧
    selectPost (groupOf (tl.map setValNone) k) =
      (selectPost (groupOf tl k)).map setValNone ∧
    ((processGroup (groupOf (tl.map setValNone) k)).isSome ↔
      (processGroup (groupOf tl k)).isSome) ∧
    (∀ out, processGroup (groupOf (tl.map setValNone) k) = some out →
      out.pre_value = none ∧ out.post_value = none ∧
      out.change = none ∧ out.percent_change = none) := by
  rw [groupOf_map_setValNone]
  refine ⟨List.length_map _ _, selectPre_map_setValNone _, selectPost_map_setValNone _,
    ?_, ?_⟩
  · unfold processGroup
    rw [List.length_map]
    by_cases hlen : (groupOf tl k).length < 2
    · simp [hlen]
    · simp only [hlen, if_false]
      rw [List.head?_map, selectPre_map_setValNone, selectPost_map_setValNone]
      cases (groupOf tl k).head? <;> cases selectPre (groupOf tl k) <;>
        cases selectPost (groupOf tl k) <;> simp
  · intro out hout
    obtain ⟨hlen, r0, pre, post, h0, h1, h2, rfl⟩ := processGroup_eq_some hout
    rw [selectPre_map_setValNone] at h1
    rw [selectPost_map_setValNone] at h2
    have hpre : pre.value = none := by
      cases hsp : selectPre (groupOf tl k) with
      | none =>
        rw [hsp] at h1
        simp at h1
      | some pre2 =>
        rw [hsp] at h1
        simp only [Option.map_some', Option.some.injEq] at h1
        rw [← h1]
        rfl
    have hpost : post.value = none := by
      cases hsp : selectPost (groupOf tl k) with
      | none =>
        rw [hsp] at h2
        simp at h2
      | some post2 =>
        rw [hsp] at h2
        simp only [Option.map_some', Option.some.injEq] at h2
        rw [← h2]
        rfl
    refine ⟨hpre, hpost, ?_, ?_⟩
    · show computeChange pre.value post.value = none
      rw [hpre, hpost]
      rfl
    · show computePercentChange pre.value post.value = none
      rw [hpre, hpost]
      rfl

theorem outcome_value_blind_witness :
    ∃ out, processGroup (groupOf ([sampleTR "P" "M" "X" (-2) (some 3) "u",
        sampleTR "P" "M" "X" 30 (some 4) "u"].map setValNone)
        ("P", "M", "M", "X")) = some out ∧
      out.change = none ∧ out.percent_change = none := by
  obtain ⟨out, hout⟩ := Option.isSome_iff_exists.mp
    (by decide : (processGroup (groupOf ([sampleTR "P" "M" "X" (-2) (some 3) "u",
      sampleTR "P" "M" "X" 30 (some 4) "u"].map setValNone)
      ("P", "M", "M", "X"))).isSome = true)
  have h := (outcome_value_blind [sampleTR "P" "M" "X" (-2) (some 3) "u",
      sampleTR "P" "M" "X" 30 (some 4) "u"] ("P", "M", "M", "X")).2.2.2.2 out hout
  exact ⟨out, hout, h.2.2.1, h.2.2.2⟩
